import Mathlib

/-!
Shallow embedding of the KD_Tree repository's geometry utilities
(`src/source/kdtree_utils.h`, `struct Utils`) and tree-node class
(`src/source/kdtree_node.h`, `class KDNode`), together with theorems
settling the specification claims about them.

Modelling conventions:
* the coordinate type `T` (a `double` in the drivers) is modelled by `ℚ`,
  except that the Euclidean distance (which takes a square root) lands in `ℝ`;
* `std::shared_ptr<KDNode>` is modelled by an address, `Option Nat`
  (`none` = `NULL`); `shared_ptr` equality is address equality;
* the failure constants of `kdtree_constants.h` (a header the repository
  references but whose body is not available) are modelled as tags of an
  inductive type `Sentinel`, so that which constant a function returns is
  tracked exactly; an out-of-bounds vector access (undefined behaviour in
  the C++) is modelled by the dedicated result `UResult.ub`;
* `std::nth_element(v.begin(), v.begin()+n, v.end())` followed by reading
  `v[n]` is embedded by its defining postcondition: the value at position
  `n` of the sorted permutation of `v`.
-/

namespace datastructures

/-- Failure constants from `kdtree_constants.h`, modelled as distinguishable
tags (the header's numeric values are not part of the sources; only the
constant names are used by `kdtree_utils.h`). -/
inductive Sentinel where
  | KDTREE_EMPTY_SET_VARIANCE : Sentinel
  | KDTREE_INVALID_DISTANCE : Sentinel
deriving DecidableEq, Repr

/-- Result of a `Utils` function: a proper value, an in-band sentinel
constant, or undefined behaviour (`ub`, an out-of-bounds `std::vector`
access in the C++). -/
inductive UResult (α : Type) where
  | ub : UResult α
  | err : Sentinel → UResult α
  | ok : α → UResult α
deriving DecidableEq, Repr

/-- Inner loop of `Utils::minMaxPerAxis` (kdtree_utils.h lines 151-162):
fold one point into the per-axis min/max accumulator.  The C++ iterates
`i` over the point's coordinates and reads `minMaxPerAxis[i]`; when the
point is longer than the accumulator that read is out of bounds, which is
the `none` branch here. -/
def updateMinMax : List (ℚ × ℚ) → List ℚ → Option (List (ℚ × ℚ))
  | acc, [] => some acc
  | [], _ :: _ => none
  | (mn, mx) :: acc, c :: cs =>
    (updateMinMax acc cs).map
      (fun rest => (if mn > c then c else mn, if mx < c then c else mx) :: rest)

/-- Outer loop of `Utils::minMaxPerAxis` (kdtree_utils.h lines 149-163):
fold the remaining points into the accumulator primed from the first
point. -/
def minMaxGo : List (ℚ × ℚ) → List (List ℚ) → Option (List (ℚ × ℚ))
  | acc, [] => some acc
  | acc, q :: qs =>
    match updateMinMax acc q with
    | none => none
    | some acc2 => minMaxGo acc2 qs

/-- `Utils::minMaxPerAxis` (kdtree_utils.h lines 126-166): empty input
yields the empty sequence; otherwise the accumulator is primed with
`(c, c)` for each coordinate `c` of the first point and the remaining
points are folded in.  `none` marks the undefined behaviour of an
out-of-bounds access. -/
def minMaxPerAxis (points : List (List ℚ)) : Option (List (ℚ × ℚ)) :=
  match points with
  | [] => some []
  | p :: ps => minMaxGo (p.map (fun c => (c, c))) ps

/-- Selection loop of `Utils::axisOfHighestVariance` (kdtree_utils.h lines
77-86): walk the per-axis spreads from index `i`, keeping the current best
axis; a later axis replaces the current one only under strict `>`. -/
def selectAxisLoop : List ℚ → Nat → Nat → ℚ → Nat
  | [], _, axis, _ => axis
  | c :: cs, i, axis, best =>
    if c > best then selectAxisLoop cs (i + 1) i c
    else selectAxisLoop cs (i + 1) axis best

/-- `Utils::axisOfHighestVariance` (kdtree_utils.h lines 59-89): returns
`KDTREE_EMPTY_SET_VARIANCE` on an empty set, otherwise the first axis of
largest `|max - min|`.  Reading `axisMinMax[0]` of a zero-dimensional
first point is out of bounds, hence `.ub`. -/
def axisOfHighestVariance (points : List (List ℚ)) : UResult Nat :=
  if points.length = 0 then .err .KDTREE_EMPTY_SET_VARIANCE
  else
    match minMaxPerAxis points with
    | none => .ub
    | some axisMinMax =>
      match axisMinMax with
      | [] => .ub
      | m0 :: rest =>
        .ok (selectAxisLoop (rest.map (fun m => |m.2 - m.1|)) 1 0 |m0.2 - m0.1|)

/-- Value-collection loop of `Utils::medianValueInAxis` (kdtree_utils.h
lines 105-115): gather every point's coordinate on `axis`, returning the
`KDTREE_EMPTY_SET_VARIANCE` constant as soon as a point is too short. -/
def collectAxisValues : List (List ℚ) → Nat → UResult (List ℚ)
  | [], _ => .ok []
  | p :: ps, axis =>
    if p.length ≤ axis then .err .KDTREE_EMPTY_SET_VARIANCE
    else
      match collectAxisValues ps axis with
      | .ub => .ub
      | .err e => .err e
      | .ok vs => .ok (p.getD axis 0 :: vs)

/-- `Utils::medianValueInAxis` (kdtree_utils.h lines 91-124): empty input
and an out-of-range axis both return the `KDTREE_EMPTY_SET_VARIANCE`
constant; otherwise `std::nth_element` at `n = values.size() / 2` followed
by `values[n]`, embedded as position `n` of the sorted permutation. -/
def medianValueInAxis (points : List (List ℚ)) (axis : Nat) : UResult ℚ :=
  if points.length = 0 then .err .KDTREE_EMPTY_SET_VARIANCE
  else
    match collectAxisValues points axis with
    | .ub => .ub
    | .err e => .err e
    | .ok values =>
      .ok ((List.mergeSort values (fun a b => decide (a ≤ b))).getD
        (values.length / 2) 0)

/-- Accumulation loop of the point-to-point `Utils::distance`
(kdtree_utils.h lines 180-187): sum of squared coordinate differences over
the common length of the two points. -/
def dist2 (p1 p2 : List ℚ) : ℚ :=
  (List.zip p1 p2).foldl (fun acc ab => acc + (ab.1 - ab.2) * (ab.1 - ab.2)) 0

/-- Point-to-point `Utils::distance` (kdtree_utils.h lines 168-189):
`KDTREE_INVALID_DISTANCE` when the cardinalities differ, otherwise
`sqrt` of the summed squared differences. -/
noncomputable def distancePoints (p1 p2 : List ℚ) : UResult ℝ :=
  if p1.length ≠ p2.length then .err .KDTREE_INVALID_DISTANCE
  else .ok (Real.sqrt ((dist2 p1 p2 : ℚ) : ℝ))

/-- Modelled from the spec: `kdtree_hyperplane.h` is not among the
available sources; the spec describes a Hyperplane as an axis index plus a
coordinate value, and `kdtree_utils.h` only reads it through the accessors
`hyperplaneIndex()` and `value()`. -/
structure KDHyperplane where
  m_hyperplaneIndex : Nat
  m_value : ℚ
deriving DecidableEq, Repr

/-- Accessor `KDHyperplane::hyperplaneIndex()`. -/
def KDHyperplane.hyperplaneIndex (h : KDHyperplane) : Nat :=
  h.m_hyperplaneIndex

/-- Accessor `KDHyperplane::value()`. -/
def KDHyperplane.value (h : KDHyperplane) : ℚ :=
  h.m_value

/-- Point-to-hyperplane `Utils::distance` (kdtree_utils.h lines 191-202):
`KDTREE_INVALID_DISTANCE` when the point has too few dimensions, otherwise
the absolute difference on the hyperplane's axis. -/
def distanceHyperplane (p : List ℚ) (plane : KDHyperplane) : UResult ℚ :=
  if p.length ≤ plane.hyperplaneIndex then .err .KDTREE_INVALID_DISTANCE
  else .ok |p.getD plane.hyperplaneIndex 0 - plane.value|

/-- Observable state of a `KDNode<T>` (kdtree_node.h lines 83-101):
hyperplane index, hyperplane value, the two child `shared_ptr`s modelled
as heap addresses (`none` = `NULL`), and the leaf point index. -/
structure KDNode where
  m_hyperplaneIndex : Nat
  m_value : ℚ
  m_left : Option Nat
  m_right : Option Nat
  m_leafIndex : Nat
deriving DecidableEq, Repr

/-- Accessor `KDNode::hyperplaneIndex()` (kdtree_node.h lines 178-183). -/
def KDNode.hyperplaneIndex (n : KDNode) : Nat :=
  n.m_hyperplaneIndex

/-- Accessor `KDNode::value()` (kdtree_node.h lines 185-190). -/
def KDNode.value (n : KDNode) : ℚ :=
  n.m_value

/-- Accessor `KDNode::left()` (kdtree_node.h lines 192-197). -/
def KDNode.left (n : KDNode) : Option Nat :=
  n.m_left

/-- Accessor `KDNode::right()` (kdtree_node.h lines 199-204). -/
def KDNode.right (n : KDNode) : Option Nat :=
  n.m_right

/-- Accessor `KDNode::leafIndex()` (kdtree_node.h lines 206-211). -/
def KDNode.leafIndex (n : KDNode) : Nat :=
  n.m_leafIndex

/-- Manipulator `KDNode::copy` (kdtree_node.h lines 217-226): assigns all
five members of `self` from `other`'s accessors; the returned node is the
state of `*this` after the call. -/
def KDNode.copy (self other : KDNode) : KDNode :=
  { m_hyperplaneIndex := other.hyperplaneIndex
    m_value := other.value
    m_left := other.left
    m_right := other.right
    m_leafIndex := other.leafIndex }

/-- Operator `KDNode::operator=` (kdtree_node.h lines 153-159): calls
`copy` and returns `*this`. -/
def KDNode.assign (self other : KDNode) : KDNode :=
  KDNode.copy self other

/-- Accessor `KDNode::equals` (kdtree_node.h lines 232-242): member-wise
comparison in which the children are compared as `shared_ptr`s, i.e. by
address. -/
def KDNode.equals (self other : KDNode) : Bool :=
  decide (other.hyperplaneIndex = self.m_hyperplaneIndex) &&
  decide (other.value = self.m_value) &&
  decide (other.left = self.m_left) &&
  decide (other.right = self.m_right) &&
  decide (other.leafIndex = self.m_leafIndex)

/-- Operator `KDNode::operator==` (kdtree_node.h lines 161-166): calls
`equals`. -/
def KDNode.operatorEq (self other : KDNode) : Bool :=
  self.equals other

/-- Heap of nodes: a map from addresses to node states, modelling the
targets of the `shared_ptr` children. -/
def NodeStore : Type :=
  Nat → Option KDNode

/-- Concrete heap with two distinct addresses `1` and `2` holding
identical childless (leaf) nodes, used to exhibit structurally equal but
non-aliased subtrees. -/
def exampleStore : NodeStore :=
  fun a => if a = 1 ∨ a = 2 then some ⟨0, 0, none, none, 7⟩ else none

/-- Coordinate values of every point on one axis, in input order
(`values` of `Utils::medianValueInAxis`, specification side). -/
def axisVals (points : List (List ℚ)) (i : Nat) : List ℚ :=
  points.map (fun p => p.getD i 0)

/-- Minimum of a list of rationals, head-primed like the C++ accumulator. -/
def listMin : List ℚ → ℚ
  | [] => 0
  | x :: xs => xs.foldl min x

/-- Maximum of a list of rationals, head-primed like the C++ accumulator. -/
def listMax : List ℚ → ℚ
  | [] => 0
  | x :: xs => xs.foldl max x

/-- Spread of the point set on axis `i`:
`max(coordinate) - min(coordinate)` over all points, as the spec words it. -/
def spread (points : List (List ℚ)) (i : Nat) : ℚ :=
  listMax (axisVals points i) - listMin (axisVals points i)

/-- One per-axis accumulator update of `minMaxPerAxis`: the C++ writes
`first := c` when `first > c` and `second := c` when `second < c`, which
is exactly `(min, max)`. -/
def minmaxStep (m : ℚ × ℚ) (c : ℚ) : ℚ × ℚ :=
  (min m.1 c, max m.2 c)

/-- Sum over all axes of the squared per-axis differences of two points
(specification side of the Euclidean distance). -/
def sumSq (p1 p2 : List ℚ) : ℚ :=
  ∑ i ∈ Finset.range p1.length, (p1.getD i 0 - p2.getD i 0) ^ 2

lemma collectAxisValues_err_of_short (points : List (List ℚ)) (axis : Nat)
    (h : ∃ p ∈ points, p.length ≤ axis) :
    collectAxisValues points axis = .err .KDTREE_EMPTY_SET_VARIANCE := by
  induction points with
  | nil => obtain ⟨p, hp, _⟩ := h; cases hp
  | cons p ps ih =>
    by_cases hp : p.length ≤ axis
    · simp [collectAxisValues, hp]
    · obtain ⟨q, hq, hql⟩ := h
      rcases List.mem_cons.mp hq with rfl | hq
      · exact absurd hql hp
      · rw [collectAxisValues, if_neg hp, ih ⟨q, hq, hql⟩]

/-- C3 counterexample: on the concrete invalid-axis input `([[1]], axis 1)`
and the concrete empty-set input `([], axis 0)`, `medianValueInAxis`
returns one and the same sentinel constant `KDTREE_EMPTY_SET_VARIANCE`;
the two failure conditions are not distinguishable outcomes. -/
theorem medianValueInAxis_sentinels_indistinguishable :
    medianValueInAxis [[1]] 1 = .err .KDTREE_EMPTY_SET_VARIANCE ∧
    medianValueInAxis [] 0 = .err .KDTREE_EMPTY_SET_VARIANCE ∧
    medianValueInAxis [[1]] 1 = medianValueInAxis [] 0 := by
  decide

/-- C3 (amended): `medianValueInAxis` fails with the sentinel constant
`KDTREE_EMPTY_SET_VARIANCE` when the point set is empty, and with the very
same sentinel constant when some point's dimensionality is at most `axis`;
the two failure conditions are reported through a single shared sentinel,
not as distinguishable outcomes. -/
theorem medianValueInAxis_failure_modes (points : List (List ℚ)) (axis : Nat) :
    (points = [] →
      medianValueInAxis points axis = .err .KDTREE_EMPTY_SET_VARIANCE) ∧
    ((∃ p ∈ points, p.length ≤ axis) →
      medianValueInAxis points axis = .err .KDTREE_EMPTY_SET_VARIANCE) := by
  constructor
  · rintro rfl
    rfl
  · intro h
    have hne : points.length ≠ 0 := by
      obtain ⟨p, hp, _⟩ := h
      cases points with
      | nil => cases hp
      | cons q qs => simp
    rw [medianValueInAxis, if_neg hne, collectAxisValues_err_of_short points axis h]

/-- Witness for C3's amended theorem at the concrete empty-set and
invalid-axis inputs. -/
theorem medianValueInAxis_failure_modes_witness :
    medianValueInAxis [] 0 = .err .KDTREE_EMPTY_SET_VARIANCE ∧
    medianValueInAxis [[1]] 1 = .err .KDTREE_EMPTY_SET_VARIANCE :=
  ⟨(medianValueInAxis_failure_modes [] 0).1 rfl,
   (medianValueInAxis_failure_modes [[1]] 1).2 ⟨[1], by decide, by decide⟩⟩

/-- C5: the point-to-hyperplane `distance` returns the absolute difference
between `p[plane.hyperplaneIndex]` and `plane.value` whenever the point
has more than `hyperplaneIndex` coordinates, and the
`KDTREE_INVALID_DISTANCE` sentinel whenever `p.size() <= hyperplaneIndex`. -/
theorem distanceHyperplane_spec (p : List ℚ) (h : KDHyperplane) :
    (h.hyperplaneIndex < p.length →
      distanceHyperplane p h = .ok |p.getD h.hyperplaneIndex 0 - h.value|) ∧
    (p.length ≤ h.hyperplaneIndex →
      distanceHyperplane p h = .err .KDTREE_INVALID_DISTANCE) := by
  refine ⟨fun hh => ?_, fun hh => ?_⟩
  · rw [distanceHyperplane, if_neg (by omega)]
  · rw [distanceHyperplane, if_pos hh]

/-- Witness for C5 at the concrete point `[3, 4]` and hyperplane
`{axis 1, value 7}`: the distance is `|4 - 7| = 3`. -/
theorem distanceHyperplane_spec_witness :
    distanceHyperplane [3, 4] ⟨1, 7⟩ = .ok 3 ∧
    distanceHyperplane [3] ⟨1, 7⟩ = .err .KDTREE_INVALID_DISTANCE := by
  constructor
  · have h := (distanceHyperplane_spec [3, 4] ⟨1, 7⟩).1 (by decide)
    rw [h]
    norm_num [KDHyperplane.hyperplaneIndex, KDHyperplane.value,
      List.getD_cons_succ, List.getD_cons_zero]
  · exact (distanceHyperplane_spec [3] ⟨1, 7⟩).2 (by decide)

/-- C7 counterexample: `KDNode::copy` is an exposed operation that changes
a constructed node's fields: copying `{4, 5, left@9, NULL, 6}` into the
constructed node `{1, 2, NULL, NULL, 3}` leaves the target no longer equal
to its constructed state. -/
theorem kdnode_copy_mutates :
    KDNode.copy ⟨1, 2, none, none, 3⟩ ⟨4, 5, some 9, none, 6⟩ ≠
      (⟨1, 2, none, none, 3⟩ : KDNode) := by
  decide

/-- C7 (amended): the read accessors expose no mutation, but `KDNode::copy`
and `KDNode::operator=` are exposed mutating operations: each overwrites
all five fields of the target node with the source node's field values, so
after the call the target's observable state equals the source's. -/
theorem kdnode_copy_semantics (self other : KDNode) :
    KDNode.copy self other = other ∧ KDNode.assign self other = other := by
  cases other
  exact ⟨rfl, rfl⟩

/-- C8: `KDNode` copy construction and assignment are shallow aliasing
copies: after `copy`/`operator=` from `other`, the target's `left()` and
`right()` are the very same child addresses (`shared_ptr` targets) as
`other`'s — the children are aliased, not cloned. -/
theorem kdnode_copy_shallow_children (self other : KDNode) :
    (KDNode.copy self other).left = other.left ∧
    (KDNode.copy self other).right = other.right ∧
    (KDNode.assign self other).left = other.left ∧
    (KDNode.assign self other).right = other.right :=
  ⟨rfl, rfl, rfl, rfl⟩

/-- C9: `KDNode::operator==` is identity-based on children: it can hold
only when the two nodes' child addresses coincide, and on the concrete
pair of nodes that agree on hyperplane index `3`, value `5` and leaf
index `9` but whose left children are the distinct addresses `1` and `2` —
which `exampleStore` maps to identical childless nodes, i.e. structurally
equal subtrees — it returns `false`. -/
theorem kdnode_equality_is_identity :
    (∀ a b : KDNode, KDNode.operatorEq a b = true →
      a.m_left = b.m_left ∧ a.m_right = b.m_right) ∧
    (KDNode.operatorEq ⟨3, 5, some 1, none, 9⟩ ⟨3, 5, some 2, none, 9⟩ = false ∧
      exampleStore 1 = exampleStore 2 ∧
      exampleStore 1 = some ⟨0, 0, none, none, 7⟩ ∧ (1 : Nat) ≠ 2) := by
  constructor
  · intro a b hab
    simp only [KDNode.operatorEq, KDNode.equals, KDNode.left, KDNode.right,
      Bool.and_eq_true, decide_eq_true_eq] at hab
    obtain ⟨⟨⟨⟨_, _⟩, h3⟩, h4⟩, _⟩ := hab
    exact ⟨h3.symm, h4.symm⟩
  · decide

/-- Witness for C9's identity direction at a concrete pair of nodes whose
`operator==` evaluates to `true`. -/
theorem kdnode_equality_is_identity_witness :
    (⟨0, 0, some 4, none, 0⟩ : KDNode).m_left =
      (⟨0, 0, some 4, none, 0⟩ : KDNode).m_left ∧
    (⟨0, 0, some 4, none, 0⟩ : KDNode).m_right =
      (⟨0, 0, some 4, none, 0⟩ : KDNode).m_right :=
  kdnode_equality_is_identity.1 ⟨0, 0, some 4, none, 0⟩ ⟨0, 0, some 4, none, 0⟩
    (by decide)

lemma updateMinMax_eq_zipWith :
    ∀ (acc : List (ℚ × ℚ)) (q : List ℚ), q.length = acc.length →
      updateMinMax acc q = some (List.zipWith minmaxStep acc q) := by
  intro acc
  induction acc with
  | nil =>
    intro q hq
    cases q with
    | nil => rfl
    | cons c cs => simp at hq
  | cons m ms ih =>
    intro q hq
    cases q with
    | nil => simp at hq
    | cons c cs =>
      obtain ⟨mn, mx⟩ := m
      have h1 : (if mn > c then c else mn) = min mn c := by
        split_ifs with h
        · exact (min_eq_right (le_of_lt h)).symm
        · exact (min_eq_left (not_lt.mp h)).symm
      have h2 : (if mx < c then c else mx) = max mx c := by
        split_ifs with h
        · exact (max_eq_right (le_of_lt h)).symm
        · exact (max_eq_left (not_lt.mp h)).symm
      simp only [updateMinMax, ih cs (by simpa using hq), Option.map_some,
        List.zipWith_cons_cons, minmaxStep, h1, h2]
      rfl

lemma minMaxGo_spec :
    ∀ (ps : List (List ℚ)) (acc : List (ℚ × ℚ)),
      (∀ p ∈ ps, p.length = acc.length) →
      ∃ mm, minMaxGo acc ps = some mm ∧ mm.length = acc.length ∧
        ∀ i, i < acc.length →
          mm.getD i (0, 0) =
            ((axisVals ps i).foldl min (acc.getD i (0, 0)).1,
             (axisVals ps i).foldl max (acc.getD i (0, 0)).2) := by
  intro ps
  induction ps with
  | nil =>
    intro acc _
    exact ⟨acc, rfl, rfl, fun i _ => by simp [axisVals]⟩
  | cons q qs ih =>
    intro acc h
    have hq : q.length = acc.length := h q (List.mem_cons_self q qs)
    have hacc2len : (List.zipWith minmaxStep acc q).length = acc.length := by
      rw [List.length_zipWith, hq, Nat.min_self]
    obtain ⟨mm, hgo, hlen, hget⟩ := ih (List.zipWith minmaxStep acc q)
      (fun p hp => by rw [h p (List.mem_cons_of_mem q hp), hacc2len])
    refine ⟨mm, ?_, by rw [hlen, hacc2len], ?_⟩
    · rw [minMaxGo, updateMinMax_eq_zipWith acc q hq]
      exact hgo
    · intro i hi
      have hzip : (List.zipWith minmaxStep acc q).getD i (0, 0) =
          minmaxStep (acc.getD i (0, 0)) (q.getD i 0) := by
        rw [List.getD_eq_getElem _ _ (hacc2len ▸ hi),
          List.getD_eq_getElem _ _ hi, List.getD_eq_getElem _ _ (hq ▸ hi),
          List.getElem_zipWith]
      rw [hget i (hacc2len ▸ hi), hzip]
      simp [axisVals, minmaxStep]

lemma minMaxPerAxis_spec (points : List (List ℚ)) (D : Nat)
    (hne : points ≠ []) (hdim : ∀ p ∈ points, p.length = D) :
    ∃ mm, minMaxPerAxis points = some mm ∧ mm.length = D ∧
      ∀ i, i < D →
        mm.getD i (0, 0) =
          (listMin (axisVals points i), listMax (axisVals points i)) := by
  cases points with
  | nil => exact absurd rfl hne
  | cons p ps =>
    have hpD : p.length = D := hdim p (List.mem_cons_self p ps)
    have hacclen : (p.map (fun c => (c, c))).length = D := by
      rw [List.length_map, hpD]
    obtain ⟨mm, hgo, hlen, hget⟩ := minMaxGo_spec ps (p.map (fun c => (c, c)))
      (fun q hq => by rw [hdim q (List.mem_cons_of_mem p hq), hacclen])
    refine ⟨mm, hgo, by rw [hlen, hacclen], ?_⟩
    intro i hi
    have hip : i < p.length := hpD ▸ hi
    have hmap : (p.map (fun c => (c, c))).getD i (0, 0) =
        (p.getD i 0, p.getD i 0) := by
      rw [List.getD_eq_getElem _ _ (hacclen ▸ hi),
        List.getD_eq_getElem _ _ hip, List.getElem_map]
    rw [hget i (hacclen ▸ hi), hmap]
    simp [axisVals, listMin, listMax]

/-- C4: for a non-empty set of points of equal dimensionality `D`,
`minMaxPerAxis` returns exactly `D` pairs whose `i`-th entry is the
(minimum, maximum) of coordinate `i` over all points; for the empty point
set it returns the empty sequence. -/
theorem minMaxPerAxis_correct (points : List (List ℚ)) (D : Nat) :
    minMaxPerAxis [] = some [] ∧
    (points ≠ [] → (∀ p ∈ points, p.length = D) →
      ∃ mm, minMaxPerAxis points = some mm ∧ mm.length = D ∧
        ∀ i, i < D →
          mm.getD i (0, 0) =
            (listMin (axisVals points i), listMax (axisVals points i))) :=
  ⟨rfl, fun hne hdim => minMaxPerAxis_spec points D hne hdim⟩

/-- Witness for C4 at the spec's concrete scenario
`[(0,0), (5,5), (9,1)]` with `D = 2`. -/
theorem minMaxPerAxis_correct_witness :
    ∃ mm, minMaxPerAxis [[0, 0], [5, 5], [9, 1]] = some mm ∧ mm.length = 2 ∧
      ∀ i, i < 2 →
        mm.getD i (0, 0) =
          (listMin (axisVals [[0, 0], [5, 5], [9, 1]] i),
           listMax (axisVals [[0, 0], [5, 5], [9, 1]] i)) :=
  (minMaxPerAxis_correct [[0, 0], [5, 5], [9, 1]] 2).2 (by decide)
    (by decide)

/-- C10: under the precondition that every point of a non-empty input has
the same dimensionality as the first point, every accumulator access of
`minMaxPerAxis` is in bounds, so the out-of-bounds (`none`) branch of the
embedding is unreachable and the accumulator keeps the first point's
length. -/
theorem minMaxPerAxis_no_oob (points : List (List ℚ))
    (hne : points ≠ [])
    (hdim : ∀ p ∈ points, p.length = (points.headD []).length) :
    minMaxPerAxis points ≠ none ∧
    ∃ mm, minMaxPerAxis points = some mm ∧
      mm.length = (points.headD []).length := by
  obtain ⟨mm, hmm, hlen, _⟩ :=
    minMaxPerAxis_spec points (points.headD []).length hne hdim
  exact ⟨by rw [hmm]; exact fun h => Option.noConfusion h, mm, hmm, hlen⟩

/-- Witness for C10 at the spec's concrete scenario. -/
theorem minMaxPerAxis_no_oob_witness :
    minMaxPerAxis [[0, 0], [5, 5], [9, 1]] ≠ none ∧
    ∃ mm, minMaxPerAxis [[0, 0], [5, 5], [9, 1]] = some mm ∧
      mm.length = ([[0, 0], [5, 5], [9, 1]].headD (α := List ℚ) []).length :=
  minMaxPerAxis_no_oob [[0, 0], [5, 5], [9, 1]] (by decide) (by decide)

lemma foldl_min_le_init : ∀ (xs : List ℚ) (x : ℚ), xs.foldl min x ≤ x := by
  intro xs
  induction xs with
  | nil => intro x; exact le_refl x
  | cons c cs ih =>
    intro x
    exact le_trans (ih (min x c)) (min_le_left x c)

lemma init_le_foldl_max : ∀ (xs : List ℚ) (x : ℚ), x ≤ xs.foldl max x := by
  intro xs
  induction xs with
  | nil => intro x; exact le_refl x
  | cons c cs ih =>
    intro x
    exact le_trans (le_max_left x c) (ih (max x c))

lemma listMin_le_listMax (l : List ℚ) (h : l ≠ []) : listMin l ≤ listMax l := by
  cases l with
  | nil => exact absurd rfl h
  | cons x xs =>
    exact le_trans (foldl_min_le_init xs x) (init_le_foldl_max xs x)

lemma selectAxisLoop_spec :
    ∀ (vs : List ℚ) (i axis : Nat) (best : ℚ) (V : Nat → ℚ),
      (∀ k, k < vs.length → vs.getD k 0 = V (i + k)) →
      axis < i → best = V axis →
      (∀ j, j < i → V j ≤ best) →
      (∀ j, j < axis → V j < best) →
      selectAxisLoop vs i axis best < i + vs.length ∧
      (∀ j, j < i + vs.length → V j ≤ V (selectAxisLoop vs i axis best)) ∧
      (∀ j, j < selectAxisLoop vs i axis best →
        V j < V (selectAxisLoop vs i axis best)) := by
  intro vs
  induction vs with
  | nil =>
    intro i axis best V _ haxis hbest hmax hfirst
    refine ⟨?_, fun j hj => ?_, fun j hj => ?_⟩
    · simp only [selectAxisLoop, List.length_nil]
      omega
    · simp only [selectAxisLoop, ← hbest]
      exact hmax j (by simpa using hj)
    · simp only [selectAxisLoop] at hj
      simp only [selectAxisLoop, ← hbest]
      exact hfirst j hj
  | cons c cs ih =>
    intro i axis best V hvs haxis hbest hmax hfirst
    have hc : c = V i := by
      have := hvs 0 (by simp)
      simpa using this
    have hvs' : ∀ k, k < cs.length → cs.getD k 0 = V (i + 1 + k) := by
      intro k hk
      have := hvs (k + 1) (by simpa using Nat.succ_lt_succ hk)
      rw [List.getD_cons_succ] at this
      rw [this]
      congr 1
      omega
    by_cases hgt : c > best
    · have hrec := ih (i + 1) i c V hvs' (Nat.lt_succ_self i) hc
        (fun j hj => by
          rcases Nat.lt_succ_iff_lt_or_eq.mp hj with hj | rfl
          · exact le_of_lt (lt_of_le_of_lt (hmax j hj) hgt)
          · exact le_of_eq hc.symm)
        (fun j hj => lt_of_le_of_lt (hmax j hj) hgt)
      simp only [selectAxisLoop, if_pos hgt]
      refine ⟨?_, fun j hj => ?_, hrec.2.2⟩
      · have h1 := hrec.1
        simp only [List.length_cons]
        omega
      · simp only [List.length_cons] at hj
        exact hrec.2.1 j (by omega)
    · have hrec := ih (i + 1) axis best V hvs' (Nat.lt_succ_of_lt haxis) hbest
        (fun j hj => by
          rcases Nat.lt_succ_iff_lt_or_eq.mp hj with hj | rfl
          · exact hmax j hj
          · rw [← hc]
            exact not_lt.mp hgt)
        hfirst
      simp only [selectAxisLoop, if_neg hgt]
      refine ⟨?_, fun j hj => ?_, hrec.2.2⟩
      · have h1 := hrec.1
        simp only [List.length_cons]
        omega
      · simp only [List.length_cons] at hj
        exact hrec.2.1 j (by omega)

/-- C2: for a non-empty set of points of equal dimensionality `D > 0`,
`axisOfHighestVariance` returns an axis of greatest spread
(`max - min` over all points), a later axis replacing the current choice
only under strict `>` so that ties resolve to the lowest axis index; for
the empty point set it returns the `KDTREE_EMPTY_SET_VARIANCE` sentinel. -/
theorem axisOfHighestVariance_correct (points : List (List ℚ)) (D : Nat) :
    axisOfHighestVariance [] = .err .KDTREE_EMPTY_SET_VARIANCE ∧
    (points ≠ [] → 0 < D → (∀ p ∈ points, p.length = D) →
      ∃ a, axisOfHighestVariance points = .ok a ∧ a < D ∧
        (∀ i, i < D → spread points i ≤ spread points a) ∧
        (∀ i, i < a → spread points i < spread points a)) := by
  refine ⟨rfl, fun hne hD hdim => ?_⟩
  obtain ⟨mm, hmm, hlen, hget⟩ := minMaxPerAxis_spec points D hne hdim
  have hvalsne : ∀ i, axisVals points i ≠ [] := by
    intro i h
    exact hne (List.map_eq_nil_iff.mp h)
  have habs : ∀ i, i < D → |(mm.getD i (0, 0)).2 - (mm.getD i (0, 0)).1| =
      spread points i := by
    intro i hi
    rw [hget i hi]
    exact abs_of_nonneg (sub_nonneg.mpr (listMin_le_listMax _ (hvalsne i)))
  cases mm with
  | nil =>
    simp at hlen
    omega
  | cons m0 rest =>
    have hlenr : rest.length + 1 = D := by simpa using hlen
    have hVk : ∀ k, k < (rest.map (fun m => |m.2 - m.1|)).length →
        (rest.map (fun m => |m.2 - m.1|)).getD k 0 = spread points (1 + k) := by
      intro k hk
      have hkr : k < rest.length := by simpa using hk
      have h1 : (rest.map (fun m => |m.2 - m.1|)).getD k 0 =
          |(rest.getD k (0, 0)).2 - (rest.getD k (0, 0)).1| := by
        rw [List.getD_eq_getElem _ _ hk, List.getElem_map,
          List.getD_eq_getElem _ _ hkr]
      have h2 : rest.getD k (0, 0) = (m0 :: rest).getD (k + 1) (0, 0) := by
        rw [List.getD_cons_succ]
      rw [h1, h2, Nat.add_comm 1 k]
      exact habs (k + 1) (by omega)
    have hb : |m0.2 - m0.1| = spread points 0 := by
      have := habs 0 hD
      simpa using this
    have hsel := selectAxisLoop_spec (rest.map (fun m => |m.2 - m.1|)) 1 0
      |m0.2 - m0.1| (spread points) hVk (Nat.lt_succ_self 0) hb
      (fun j hj => by
        have hj0 : j = 0 := by omega
        subst hj0
        exact le_of_eq hb.symm)
      (fun j hj => absurd hj (Nat.not_lt_zero j))
    have hvslen : (rest.map (fun m => |m.2 - m.1|)).length = rest.length := by
      simp
    have hne' : points.length ≠ 0 := by
      cases points with
      | nil => exact absurd rfl hne
      | cons q qs => simp
    have heval : axisOfHighestVariance points =
        .ok (selectAxisLoop (rest.map (fun m => |m.2 - m.1|)) 1 0
          |m0.2 - m0.1|) := by
      rw [axisOfHighestVariance, if_neg hne', hmm]
    refine ⟨selectAxisLoop (rest.map (fun m => |m.2 - m.1|)) 1 0 |m0.2 - m0.1|,
      heval, by omega, fun i hi => hsel.2.1 i (by omega), fun i hi => hsel.2.2 i hi⟩

/-- Witness for C2 at the spec's concrete scenario `[(0,0), (5,5), (9,1)]`
with `D = 2`: axis `0` has the greatest spread (`9` against `5`). -/
theorem axisOfHighestVariance_correct_witness :
    (∃ a, axisOfHighestVariance [[0, 0], [5, 5], [9, 1]] = .ok a ∧ a < 2 ∧
      (∀ i, i < 2 →
        spread [[0, 0], [5, 5], [9, 1]] i ≤ spread [[0, 0], [5, 5], [9, 1]] a) ∧
      (∀ i, i < a →
        spread [[0, 0], [5, 5], [9, 1]] i < spread [[0, 0], [5, 5], [9, 1]] a)) ∧
    axisOfHighestVariance [[0, 0], [5, 5], [9, 1]] = .ok 0 :=
  ⟨(axisOfHighestVariance_correct [[0, 0], [5, 5], [9, 1]] 2).2 (by decide)
      (by decide) (by decide),
    by norm_num [axisOfHighestVariance, minMaxPerAxis, minMaxGo, updateMinMax,
      selectAxisLoop]⟩

lemma collectAxisValues_ok (points : List (List ℚ)) (axis : Nat)
    (h : ∀ p ∈ points, axis < p.length) :
    collectAxisValues points axis = .ok (axisVals points axis) := by
  induction points with
  | nil => rfl
  | cons p ps ih =>
    rw [collectAxisValues, if_neg (not_le.mpr (h p (List.mem_cons_self p ps))),
      ih (fun q hq => h q (List.mem_cons_of_mem p hq))]
    rfl

/-- C1: for a non-empty set of points of equal dimensionality `D` and an
axis below `D`, `medianValueInAxis` returns the lower median of the
points' coordinate values on that axis: the element sitting at position
`n / 2` of those `n` values once sorted (never an average of two middle
values). -/
theorem medianValueInAxis_correct (points : List (List ℚ)) (axis D : Nat)
    (h1 : points ≠ []) (h2 : ∀ p ∈ points, p.length = D) (h3 : axis < D) :
    ∃ sortedVals, List.Sorted (· ≤ ·) sortedVals ∧
      List.Perm sortedVals (axisVals points axis) ∧
      medianValueInAxis points axis =
        .ok (sortedVals.getD (points.length / 2) 0) := by
  have hne : points.length ≠ 0 := by
    cases points with
    | nil => exact absurd rfl h1
    | cons q qs => simp
  have hax : ∀ p ∈ points, axis < p.length := fun p hp => (h2 p hp) ▸ h3
  refine ⟨List.mergeSort (axisVals points axis) (fun a b => decide (a ≤ b)),
    ?_, List.mergeSort_perm _ _, ?_⟩
  · have hs := @List.sorted_mergeSort ℚ (fun a b : ℚ => decide (a ≤ b))
      (fun a b c hab hbc => by
        simp only [decide_eq_true_eq] at hab hbc ⊢
        exact le_trans hab hbc)
      (fun a b => by
        simp only [Bool.or_eq_true, decide_eq_true_eq]
        exact le_total a b)
      (axisVals points axis)
    exact hs.imp (fun hab => by simpa using hab)
  · rw [medianValueInAxis, if_neg hne, collectAxisValues_ok points axis hax]
    simp [axisVals]

/-- Witness for C1 at the spec's concrete scenario: axis `0` of
`[(0,0), (5,5), (9,1)]`, whose sorted axis values are `{0, 5, 9}` with
lower median at position `3 / 2 = 1`. -/
theorem medianValueInAxis_correct_witness :
    ∃ sortedVals, List.Sorted (· ≤ ·) sortedVals ∧
      List.Perm sortedVals (axisVals [[0, 0], [5, 5], [9, 1]] 0) ∧
      medianValueInAxis [[0, 0], [5, 5], [9, 1]] 0 =
        .ok (sortedVals.getD ([[0, 0], [5, 5], [9, 1]].length / 2) 0) :=
  medianValueInAxis_correct [[0, 0], [5, 5], [9, 1]] 0 2 (by decide)
    (by decide) (by decide)

lemma dist2_foldl_init (l : List (ℚ × ℚ)) : ∀ a : ℚ,
    l.foldl (fun acc ab => acc + (ab.1 - ab.2) * (ab.1 - ab.2)) a =
      a + l.foldl (fun acc ab => acc + (ab.1 - ab.2) * (ab.1 - ab.2)) 0 := by
  induction l with
  | nil =>
    intro a
    simp
  | cons d ds ih =>
    intro a
    simp only [List.foldl_cons]
    rw [ih (a + (d.1 - d.2) * (d.1 - d.2)), ih ((0 : ℚ) + (d.1 - d.2) * (d.1 - d.2))]
    ring

lemma dist2_spec : ∀ (p1 p2 : List ℚ), p1.length = p2.length →
    dist2 p1 p2 = sumSq p1 p2 := by
  intro p1
  induction p1 with
  | nil =>
    intro p2 h
    cases p2 with
    | nil => simp [dist2, sumSq]
    | cons y ys => simp at h
  | cons x xs ih =>
    intro p2 h
    cases p2 with
    | nil => simp at h
    | cons y ys =>
      have hlen : xs.length = ys.length := by simpa using h
      have hx : (List.zip xs ys).foldl
          (fun acc ab => acc + (ab.1 - ab.2) * (ab.1 - ab.2)) 0 = dist2 xs ys := rfl
      simp only [dist2, List.zip_cons_cons, List.foldl_cons]
      rw [dist2_foldl_init, hx, ih ys hlen]
      simp only [sumSq, List.length_cons]
      rw [Finset.sum_range_succ']
      simp only [List.getD_cons_succ, List.getD_cons_zero]
      ring

/-- C6: the point-to-point `distance` returns the
`KDTREE_INVALID_DISTANCE` sentinel exactly when the two points have
different dimensionality; on equal dimensionality it returns the
Euclidean distance, the square root of the sum over all axes of the
squared per-axis differences. -/
theorem distancePoints_correct (p1 p2 : List ℚ) :
    (distancePoints p1 p2 = .err .KDTREE_INVALID_DISTANCE ↔
      p1.length ≠ p2.length) ∧
    (p1.length = p2.length →
      distancePoints p1 p2 = .ok (Real.sqrt ((sumSq p1 p2 : ℚ) : ℝ))) := by
  by_cases hl : p1.length = p2.length
  · refine ⟨⟨fun h => ?_, fun h => absurd hl h⟩, fun _ => ?_⟩
    · rw [distancePoints, if_neg (fun hc => hc hl)] at h
      exact absurd h (by simp)
    · rw [distancePoints, if_neg (fun hc => hc hl), dist2_spec p1 p2 hl]
  · refine ⟨⟨fun _ => hl, fun _ => ?_⟩, fun h => absurd h hl⟩
    rw [distancePoints, if_pos hl]

/-- Witness for C6 at the concrete points `[3, 0]` and `[0, 4]`
(distance `5`) and the mismatched pair `[1]` against `[1, 2]`. -/
theorem distancePoints_correct_witness :
    distancePoints [3, 0] [0, 4] =
      .ok (Real.sqrt ((sumSq [3, 0] [0, 4] : ℚ) : ℝ)) ∧
    distancePoints [3, 0] [0, 4] = .ok 5 ∧
    distancePoints [1] [1, 2] = .err .KDTREE_INVALID_DISTANCE := by
  have h1 := (distancePoints_correct [3, 0] [0, 4]).2 (by decide)
  refine ⟨h1, ?_, (distancePoints_correct [1] [1, 2]).1.mpr (by decide)⟩
  have hsum : sumSq [3, 0] [0, 4] = 25 := by
    norm_num [sumSq, Finset.sum_range_succ, Finset.sum_range_zero,
      List.getD_cons_succ, List.getD_cons_zero]
  have h5 : Real.sqrt ((sumSq [3, 0] [0, 4] : ℚ) : ℝ) = 5 := by
    rw [hsum, show ((25 : ℚ) : ℝ) = (5 : ℝ) ^ 2 by norm_num]
    exact Real.sqrt_sq (by norm_num)
  rw [h1, h5]

end datastructures
